import Mathlib

/-!
Shallow embedding of the contractor-mgmt repository core:
  * `cmswww/database/database.go` — the `Identity` record and the
    `IsIdentityActive` / `ActiveIdentity` / `ActiveIdentityString` helpers;
  * `cmswww/cmd/cmswwwdataload/config/config.go` — the layered
    configuration resolver `Load` and its path helpers.

External collaborators (the Go standard library `path/filepath` lexical
algorithms, the flags library's parse outcomes, the file system, the
environment) are embedded explicitly: path functions are implemented
following Go's documented lexical algorithms for unix paths; parse and
I/O outcomes are inputs of the embedded `load`.
-/

namespace GoPath

/-- Split a character list on a separator character, Go `strings.Split`
style: `split '/' "" = [""]`, `split '/' "a/b" = ["a","b"]`. -/
def splitChar (sep : Char) : List Char → List (List Char)
  | [] => [[]]
  | c :: cs =>
    let r := splitChar sep cs
    if c = sep then [] :: r
    else
      match r with
      | [] => [[c]]
      | h :: t => (c :: h) :: t

/-- Interleave a separator character between chunks, Go `strings.Join` style. -/
def intercalChar (sep : Char) : List (List Char) → List Char
  | [] => []
  | [x] => x
  | x :: xs => x ++ sep :: intercalChar sep xs

/-- One step of Go `filepath.Clean`'s element processing, over an accumulator
kept in reverse order: drop empty and `.` elements; on `..` pop a previous
non-`..` element, keep a `..` run for relative paths, and drop `..` at the
root of a rooted path. -/
def normStepRev (rooted : Bool) (acc : List (List Char)) (p : List Char) :
    List (List Char) :=
  if p = [] ∨ p = ['.'] then acc
  else if p = ['.', '.'] then
    match acc with
    | [] => if rooted then [] else [['.', '.']]
    | a :: rest => if a = ['.', '.'] then p :: acc else rest
  else p :: acc

/-- The normalized element list of Go `filepath.Clean`. -/
def normParts (rooted : Bool) (parts : List (List Char)) : List (List Char) :=
  (parts.foldl (normStepRev rooted) []).reverse

/-- Print a normalized element list back to a path, as `filepath.Clean` does:
an empty result is `/` (rooted) or `.` (relative). -/
def renderParts (rooted : Bool) (comps : List (List Char)) : List Char :=
  if comps = [] then (if rooted then ['/'] else ['.'])
  else (if rooted then ['/'] else []) ++ intercalChar '/' comps

/-- Go `filepath.IsAbs` for unix: the path begins with a separator. -/
def goIsAbs (s : String) : Bool := s.toList.head? == some '/'

/-- Go `filepath.Clean` for unix paths (purely lexical). -/
def goClean (s : String) : String :=
  let cs := s.toList
  if cs = [] then "."
  else
    let rooted := cs.head? == some '/'
    String.mk (renderParts rooted (normParts rooted (splitChar '/' cs)))

/-- Go `filepath.Join` of two elements: empty elements are dropped, the rest
are joined with a separator and cleaned; all-empty input yields `""`. -/
def goJoin (a b : String) : String :=
  if a = "" then (if b = "" then "" else goClean b)
  else goClean (String.mk (a.toList ++ '/' :: b.toList))

/-- Go `filepath.Abs` modelled with the working directory as explicit input:
an absolute path is cleaned, a relative one is joined onto the working
directory. -/
def goAbs (cwd : String) (p : String) : String :=
  if goIsAbs p then goClean p else goJoin cwd p

/-- Go `filepath.Dir` for unix: everything up to and including the final
separator, cleaned (`Clean("")` giving `"."` when there is no separator). -/
def goDir (p : String) : String :=
  goClean (String.mk ((p.toList.reverse.dropWhile (· ≠ '/')).reverse))

end GoPath

namespace database

/-- `identity.PublicKeySize` from the external politeia dependency: the size
in bytes of an ed25519 public key. -/
def PublicKeySize : Nat := 32

/-- The `Identity` record of `database.go`: an ed25519 public key (a byte
sequence, bytes as naturals below 256 in the intended range) plus activation
and deactivation timestamps (Go `int64`). -/
structure Identity where
  Key : List Nat
  Activated : Int
  Deactivated : Int
  deriving DecidableEq, Repr

/-- `IsIdentityActive` from `database.go`: active iff activated at a non-zero
time and not deactivated. -/
def IsIdentityActive (i : Identity) : Bool :=
  i.Activated != 0 && i.Deactivated == 0

/-- The all-zero key value `[identity.PublicKeySize]byte{}`. -/
def zeroKey : List Nat := List.replicate PublicKeySize 0

/-- `ActiveIdentity` from `database.go`: scan the sequence in order and
return the first active key, or the all-zero key and `false`. -/
def ActiveIdentity : List Identity → List Nat × Bool
  | [] => (zeroKey, false)
  | v :: rest => if IsIdentityActive v then (v.Key, true) else ActiveIdentity rest

/-- One hex digit as Go's `encoding/hex` table `0123456789abcdef` produces. -/
def hexDigit (n : Nat) : Char :=
  if n < 10 then Char.ofNat (48 + n) else Char.ofNat (87 + n)

/-- Go `hex.EncodeToString` over a byte sequence: two lowercase hex digits
per byte, high nibble first (`% 256` makes the `uint8` range explicit). -/
def hexEncodeToString (bs : List Nat) : String :=
  String.mk (List.flatten (bs.map fun b => [hexDigit (b % 256 / 16), hexDigit (b % 16)]))

/-- `ActiveIdentityString` from `database.go`: the `ActiveIdentity` lookup
with the key hex-encoded. -/
def ActiveIdentityString (i : List Identity) : String × Bool :=
  let r := ActiveIdentity i
  (hexEncodeToString r.1, r.2)

end database

namespace config

open GoPath

/-- `defaultDataDirname` from `config.go`. -/
def defaultDataDirname : String := "dataload"

/-- `defaultConfigFilename` from `config.go`. -/
def defaultConfigFilename : String := "cmswwwdataload.conf"

/-- `defaultPoliteiadLogFilename` from `config.go`. -/
def defaultPoliteiadLogFilename : String := "politeiad.log"

/-- `defaultCmswwwLogFilename` from `config.go`. -/
def defaultCmswwwLogFilename : String := "cmswww.log"

/-- `defaultLogLevel` from `config.go`. -/
def defaultLogLevel : String := "info"

/-- `defaultDataDir` from `config.go`, as a function of
`sharedconfig.DefaultHomeDir` (an external constant of the repository's
`sharedconfig` package, passed in explicitly). -/
def defaultDataDir (home : String) : String := goJoin home defaultDataDirname

/-- `defaultConfigFile` from `config.go`. -/
def defaultConfigFile (home : String) : String :=
  goJoin (defaultDataDir home) defaultConfigFilename

/-- The `Config` record of `config.go`: all user-settable options plus the
two derived log-file paths. -/
structure Config where
  AdminEmail : String
  AdminUser : String
  AdminPass : String
  ContractorEmail : String
  ContractorUser : String
  ContractorPass : String
  ContractorName : String
  ContractorLocation : String
  ContractorExtendedPublicKey : String
  Verbose : Bool
  DataDir : String
  ConfigFile : String
  DebugLevel : String
  DeleteData : Bool
  IncludeTests : Bool
  PoliteiadLogFile : String
  CmswwwLogFile : String
  deriving DecidableEq, Repr

/-- A set of options extracted by the flags library from one source (the
command line or the config file): each settable field is either absent or a
value written into the target record. -/
structure PartialConfig where
  AdminEmail : Option String := none
  AdminUser : Option String := none
  AdminPass : Option String := none
  ContractorEmail : Option String := none
  ContractorUser : Option String := none
  ContractorPass : Option String := none
  ContractorName : Option String := none
  ContractorLocation : Option String := none
  ContractorExtendedPublicKey : Option String := none
  Verbose : Option Bool := none
  DataDir : Option String := none
  ConfigFile : Option String := none
  DebugLevel : Option String := none
  DeleteData : Option Bool := none
  IncludeTests : Option Bool := none
  deriving DecidableEq, Repr

/-- The flags library writing a parsed option set into a `Config` record:
each present option overwrites that field, absent options leave the field
untouched. -/
def applyPartial (c : Config) (p : PartialConfig) : Config :=
  { c with
    AdminEmail := p.AdminEmail.getD c.AdminEmail
    AdminUser := p.AdminUser.getD c.AdminUser
    AdminPass := p.AdminPass.getD c.AdminPass
    ContractorEmail := p.ContractorEmail.getD c.ContractorEmail
    ContractorUser := p.ContractorUser.getD c.ContractorUser
    ContractorPass := p.ContractorPass.getD c.ContractorPass
    ContractorName := p.ContractorName.getD c.ContractorName
    ContractorLocation := p.ContractorLocation.getD c.ContractorLocation
    ContractorExtendedPublicKey :=
      p.ContractorExtendedPublicKey.getD c.ContractorExtendedPublicKey
    Verbose := p.Verbose.getD c.Verbose
    DataDir := p.DataDir.getD c.DataDir
    ConfigFile := p.ConfigFile.getD c.ConfigFile
    DebugLevel := p.DebugLevel.getD c.DebugLevel
    DeleteData := p.DeleteData.getD c.DeleteData
    IncludeTests := p.IncludeTests.getD c.IncludeTests }

/-- The default record built at the top of `Load` (`config.go` lines
96–112); the derived log-file fields start at their Go zero value. -/
def defaultConfig (home : String) : Config :=
  { AdminEmail := "admin@example.com"
    AdminUser := "admin"
    AdminPass := "password"
    ContractorEmail := "contractor@example.com"
    ContractorUser := "contractor"
    ContractorPass := "password"
    ContractorName := "John Smith"
    ContractorLocation := "Dallas, TX, USA"
    ContractorExtendedPublicKey := "faketpub"
    Verbose := false
    DataDir := defaultDataDir home
    ConfigFile := defaultConfigFile home
    DebugLevel := defaultLogLevel
    DeleteData := false
    IncludeTests := false
    PoliteiadLogFile := ""
    CmswwwLogFile := "" }

/-- `cleanAndExpandPath` from `config.go`: a leading `~` is replaced by
`filepath.Dir(sharedconfig.DefaultHomeDir)`, then environment variables are
expanded (`os.ExpandEnv`, passed in as `env`) and the result cleaned.
The `~` guard tests the first character, so replacing the first occurrence
is prepending the directory to the remainder. -/
def cleanAndExpandPath (home : String) (env : String → String) (path : String) :
    String :=
  let p :=
    if path.toList.head? == some '~' then
      String.mk ((goDir home).toList ++ path.toList.drop 1)
    else path
  goClean (env p)

/-- The command-line input as the flags library reports it: whether the help
flag is present, whether the argument list is malformed (the final parse
fails), and the option set the parse extracts. -/
structure CliInput where
  help : Bool
  malformed : Bool
  opts : PartialConfig
  deriving DecidableEq, Repr

/-- The error the flags INI parser can return for a config file, as `Load`
distinguishes them: a `*os.PathError` from opening the file (absence is the
`os.IsNotExist` case) or any other (parse/syntax) error. -/
inductive GoErr where
  | pathErr (notExist : Bool)
  | parseErr
  deriving DecidableEq, Repr

/-- The `_, ok := err.(*os.PathError)` test in `Load`. -/
def GoErr.isPathErr : GoErr → Bool
  | .pathErr _ => true
  | .parseErr => false

/-- Outcome of `flags.NewIniParser(parser).ParseFile` on one path: the
option set read from the file, or an error. -/
inductive ReadResult where
  | parsed (p : PartialConfig)
  | readErr (e : GoErr)
  deriving DecidableEq, Repr

/-- Which `return nil, err` site of `Load` failed. -/
inductive FailCause where
  | configFileError
  | cliParseError
  | mkdirError
  deriving DecidableEq, Repr

/-- The result value of `Load`: a resolved record with the deferred
config-file warning that was emitted, a help exit, or a failure. -/
inductive LoadOutcome where
  | ok (cfg : Config) (fileWarn : Option GoErr)
  | helpExit
  | fatal (r : FailCause)
  deriving DecidableEq, Repr

/-- `Load`'s outcome together with the file-system effects it attempted:
which paths it tried to read as a config file and which directories it
tried to create. -/
structure LoadResult where
  outcome : LoadOutcome
  fileReads : List String
  mkdirs : List String
  deriving DecidableEq, Repr

/-- `config.go` lines 135–143: when the pre-parsed data directory is
non-empty, absolutize it and recompute the config-file path — relocating it
under the new data directory when it was left at its default, expanding and
cleaning it otherwise. -/
def applyDataDirOverride (home cwd : String) (env : String → String)
    (cfg preCfg : Config) : Config :=
  if preCfg.DataDir ≠ "" then
    let dd := goAbs cwd preCfg.DataDir
    let cf :=
      if preCfg.ConfigFile = defaultConfigFile home then
        goJoin dd defaultConfigFilename
      else cleanAndExpandPath home env preCfg.ConfigFile
    { cfg with DataDir := dd, ConfigFile := cf }
  else cfg

/-- The record `Load` holds after the pre-parse and the data-directory
override step, before the config file is read. -/
def preAdjusted (home cwd : String) (env : String → String) (cli : CliInput) :
    Config :=
  applyDataDirOverride home cwd env (defaultConfig home)
    (applyPartial (defaultConfig home) cli.opts)

/-- The tail of `Load` after the config file step (`config.go` lines
169–198): the final command-line parse, directory creation, the deferred
warning and the derived log paths. -/
def loadFinish (cli : CliInput) (mkdirOk : String → Bool) (cfg2 : Config)
    (warn : Option GoErr) (reads : List String) : LoadResult :=
  if cli.malformed then
    { outcome := .fatal .cliParseError, fileReads := reads, mkdirs := [] }
  else
    let cfg3 := applyPartial cfg2 cli.opts
    if mkdirOk cfg3.DataDir then
      { outcome := .ok
          { cfg3 with
            PoliteiadLogFile := goJoin cfg3.DataDir defaultPoliteiadLogFilename
            CmswwwLogFile := goJoin cfg3.DataDir defaultCmswwwLogFilename }
          warn
        fileReads := reads
        mkdirs := [cfg3.DataDir] }
    else
      { outcome := .fatal .mkdirError, fileReads := reads,
        mkdirs := [cfg3.DataDir] }

/-- `Load` from `config.go`, over explicit world inputs: the external home
directory, working directory and environment expansion, the command-line
parse outcome, the per-path config-file read outcome, and the per-path
directory-creation outcome. -/
def load (home cwd : String) (env : String → String) (cli : CliInput)
    (readFile : String → ReadResult) (mkdirOk : String → Bool) : LoadResult :=
  if cli.help then { outcome := .helpExit, fileReads := [], mkdirs := [] }
  else
    let cfg1 := preAdjusted home cwd env cli
    match readFile cfg1.ConfigFile with
    | .readErr e =>
      if e.isPathErr then loadFinish cli mkdirOk cfg1 (some e) [cfg1.ConfigFile]
      else
        { outcome := .fatal .configFileError, fileReads := [cfg1.ConfigFile],
          mkdirs := [] }
    | .parsed p =>
      loadFinish cli mkdirOk (applyPartial cfg1 p) none [cfg1.ConfigFile]

end config

/-- The record resolved in the C1 witness world: home `/h`, a command line
setting only the admin username, a config file setting only the admin
username and password. -/
def c1WitnessConfig : config.Config :=
  { AdminEmail := "admin@example.com"
    AdminUser := "cliadmin"
    AdminPass := "filepass"
    ContractorEmail := "contractor@example.com"
    ContractorUser := "contractor"
    ContractorPass := "password"
    ContractorName := "John Smith"
    ContractorLocation := "Dallas, TX, USA"
    ContractorExtendedPublicKey := "faketpub"
    Verbose := false
    DataDir := "/h/dataload"
    ConfigFile := "/h/dataload/cmswwwdataload.conf"
    DebugLevel := "info"
    DeleteData := false
    IncludeTests := false
    PoliteiadLogFile := "/h/dataload/politeiad.log"
    CmswwwLogFile := "/h/dataload/cmswww.log" }

/-- The record `Load` resolves in the `--datadir=/tmp/x`, missing-config-file
scenario: defaults everywhere except the overridden data directory, the
relocated config file and the derived log paths. -/
def scenario9Config : config.Config :=
  { AdminEmail := "admin@example.com"
    AdminUser := "admin"
    AdminPass := "password"
    ContractorEmail := "contractor@example.com"
    ContractorUser := "contractor"
    ContractorPass := "password"
    ContractorName := "John Smith"
    ContractorLocation := "Dallas, TX, USA"
    ContractorExtendedPublicKey := "faketpub"
    Verbose := false
    DataDir := "/tmp/x"
    ConfigFile := "/tmp/x/cmswwwdataload.conf"
    DebugLevel := "info"
    DeleteData := false
    IncludeTests := false
    PoliteiadLogFile := "/tmp/x/politeiad.log"
    CmswwwLogFile := "/tmp/x/cmswww.log" }

/-- The record `Load` returns when the command line supplies the relative
data directory `rel` with working directory `/work`: the final parse leaves
the raw relative value in `DataDir`, while the config file was probed under
the absolutized `/work/rel`. -/
def relDataDirConfig : config.Config :=
  { AdminEmail := "admin@example.com"
    AdminUser := "admin"
    AdminPass := "password"
    ContractorEmail := "contractor@example.com"
    ContractorUser := "contractor"
    ContractorPass := "password"
    ContractorName := "John Smith"
    ContractorLocation := "Dallas, TX, USA"
    ContractorExtendedPublicKey := "faketpub"
    Verbose := false
    DataDir := "rel"
    ConfigFile := "/work/rel/cmswwwdataload.conf"
    DebugLevel := "info"
    DeleteData := false
    IncludeTests := false
    PoliteiadLogFile := "rel/politeiad.log"
    CmswwwLogFile := "rel/cmswww.log" }

/-- The record `Load` produces with home directory `/h`, no overrides and
an unreadable (but present) config file: all defaults, with the derived log
paths under the default data directory. -/
def permErrConfig : config.Config :=
  { AdminEmail := "admin@example.com"
    AdminUser := "admin"
    AdminPass := "password"
    ContractorEmail := "contractor@example.com"
    ContractorUser := "contractor"
    ContractorPass := "password"
    ContractorName := "John Smith"
    ContractorLocation := "Dallas, TX, USA"
    ContractorExtendedPublicKey := "faketpub"
    Verbose := false
    DataDir := "/h/dataload"
    ConfigFile := "/h/dataload/cmswwwdataload.conf"
    DebugLevel := "info"
    DeleteData := false
    IncludeTests := false
    PoliteiadLogFile := "/h/dataload/politeiad.log"
    CmswwwLogFile := "/h/dataload/cmswww.log" }

/-- The record resolved in the C7 witness world: home `/h`, no overrides, a
config file that parses to the empty option set. -/
def c7WitnessConfig : config.Config :=
  { AdminEmail := "admin@example.com"
    AdminUser := "admin"
    AdminPass := "password"
    ContractorEmail := "contractor@example.com"
    ContractorUser := "contractor"
    ContractorPass := "password"
    ContractorName := "John Smith"
    ContractorLocation := "Dallas, TX, USA"
    ContractorExtendedPublicKey := "faketpub"
    Verbose := false
    DataDir := "/h/dataload"
    ConfigFile := "/h/dataload/cmswwwdataload.conf"
    DebugLevel := "info"
    DeleteData := false
    IncludeTests := false
    PoliteiadLogFile := "/h/dataload/politeiad.log"
    CmswwwLogFile := "/h/dataload/cmswww.log" }

namespace GoPath

/-- The components view of a path: the normalized element list its cleaned
form denotes, computed from the raw string the way `goClean` computes it. -/
def pathParts (s : String) : List (List Char) :=
  normParts (goIsAbs s) (splitChar '/' s.toList)

/-- A usable path component: non-empty, separator-free and not one of the
special elements `.` and `..`. -/
def goodComp (n : List Char) : Prop :=
  n ≠ [] ∧ '/' ∉ n ∧ n ≠ ['.'] ∧ n ≠ ['.', '.']

/-- `c` is a child path of `d`: they agree on absoluteness and the
normalized components of `c` are those of `d` extended by one usable
component. -/
def childOf (c d : String) : Prop :=
  goIsAbs c = goIsAbs d ∧ ∃ n, goodComp n ∧ pathParts c = pathParts d ++ [n]

end GoPath

namespace GoPath

/-- Splitting never yields the empty chunk list. -/
lemma splitChar_ne_nil (sep : Char) (l : List Char) : splitChar sep l ≠ [] := by
  cases l with
  | nil => simp [splitChar]
  | cons c cs =>
    unfold splitChar
    dsimp only
    split
    · simp
    · rcases splitChar sep cs with _ | ⟨h, t⟩ <;> simp

/-- Splitting distributes over an occurrence of the separator. -/
lemma splitChar_append_sep (sep : Char) (xs ys : List Char) :
    splitChar sep (xs ++ sep :: ys) = splitChar sep xs ++ splitChar sep ys := by
  induction xs with
  | nil => simp [splitChar]
  | cons c cs ih =>
    by_cases hc : c = sep
    · subst hc
      simp [splitChar, ih]
    · rcases hsc : splitChar sep cs with _ | ⟨h0, t0⟩
      · exact absurd hsc (splitChar_ne_nil sep cs)
      · simp [splitChar, hc, ih, hsc]

/-- A separator-free chunk splits to itself. -/
lemma splitChar_no_sep (sep : Char) (x : List Char) (h : sep ∉ x) :
    splitChar sep x = [x] := by
  induction x with
  | nil => rfl
  | cons c cs ih =>
    have hc : c ≠ sep := fun e => h (e ▸ List.mem_cons_self c cs)
    have hcs : sep ∉ cs := fun m => h (List.mem_cons_of_mem c m)
    simp [splitChar, hc, ih hcs]

/-- Every chunk produced by splitting is separator-free. -/
lemma mem_splitChar_no_sep (sep : Char) (l : List Char) :
    ∀ x ∈ splitChar sep l, sep ∉ x := by
  induction l with
  | nil =>
    intro x hx
    simp [splitChar] at hx
    simp [hx]
  | cons c cs ih =>
    intro x hx
    by_cases hc : c = sep
    · subst hc
      simp only [splitChar, if_pos rfl] at hx
      rcases List.mem_cons.1 hx with h | h
      · simp [h]
      · exact ih x h
    · rcases hsc : splitChar sep cs with _ | ⟨h0, t0⟩
      · exact absurd hsc (splitChar_ne_nil sep cs)
      · simp only [splitChar, hc] at hx
        rw [hsc] at hx
        simp only [if_neg hc] at hx
        rcases List.mem_cons.1 hx with h | h
        · subst h
          intro hm
          rcases List.mem_cons.1 hm with h | h
          · exact hc h.symm
          · exact ih h0 (hsc ▸ List.mem_cons_self h0 t0) h
        · exact ih x (hsc ▸ List.mem_cons_of_mem h0 h)

/-- Splitting inverts interleaving on separator-free chunks. -/
lemma splitChar_intercalChar (sep : Char) (L : List (List Char)) (hL : L ≠ [])
    (h : ∀ x ∈ L, sep ∉ x) : splitChar sep (intercalChar sep L) = L := by
  induction L with
  | nil => exact absurd rfl hL
  | cons x xs ih =>
    cases xs with
    | nil =>
      exact splitChar_no_sep sep x (h x (List.mem_cons_self x []))
    | cons y ys =>
      have : intercalChar sep (x :: y :: ys) = x ++ sep :: intercalChar sep (y :: ys) := rfl
      rw [this, splitChar_append_sep,
        splitChar_no_sep sep x (h x (List.mem_cons_self x (y :: ys))),
        ih (by simp) (fun z hz => h z (List.mem_cons_of_mem x hz))]
      rfl

/-- A usable component is simply pushed by the normalization step. -/
lemma normStepRev_good (rooted : Bool) (acc : List (List Char))
    (p : List Char) (hp : p ≠ [] ∧ p ≠ ['.'] ∧ p ≠ ['.', '.']) :
    normStepRev rooted acc p = p :: acc := by
  unfold normStepRev
  rw [if_neg (not_or.2 ⟨hp.1, hp.2.1⟩), if_neg hp.2.2]

/-- A run of usable components is pushed in reverse onto the accumulator. -/
lemma foldl_normStepRev_goods (rooted : Bool) (ys : List (List Char))
    (h : ∀ y ∈ ys, y ≠ [] ∧ y ≠ ['.'] ∧ y ≠ ['.', '.']) (acc : List (List Char)) :
    List.foldl (normStepRev rooted) acc ys = ys.reverse ++ acc := by
  induction ys generalizing acc with
  | nil => simp
  | cons y ys ih =>
    rw [List.foldl_cons, normStepRev_good rooted acc y (h y (List.mem_cons_self y ys)),
      ih (fun z hz => h z (List.mem_cons_of_mem y hz))]
    simp

/-- In a relative path a run of `..` components is left in place. -/
lemma foldl_normStepRev_dots (k j : Nat) :
    List.foldl (normStepRev false) (List.replicate j ['.', '.'])
        (List.replicate k ['.', '.']) =
      List.replicate (k + j) ['.', '.'] := by
  induction k generalizing j with
  | zero => simp
  | succ k ih =>
    rw [List.replicate_succ, List.foldl_cons]
    have hstep : normStepRev false (List.replicate j ['.', '.']) ['.', '.'] =
        List.replicate (j + 1) ['.', '.'] := by
      cases j with
      | zero => simp [normStepRev]
      | succ j => simp [normStepRev, List.replicate_succ]
    rw [hstep, ih (j + 1)]
    congr 1
    omega

/-- Normalization fixes a list that is already in normal form: a leading
run of `..` components (none when rooted) followed by usable components. -/
lemma normParts_fixed (rooted : Bool) (k : Nat) (ys : List (List Char))
    (hys : ∀ y ∈ ys, y ≠ [] ∧ y ≠ ['.'] ∧ y ≠ ['.', '.'])
    (hk : rooted = true → k = 0) :
    normParts rooted (List.replicate k ['.', '.'] ++ ys) =
      List.replicate k ['.', '.'] ++ ys := by
  unfold normParts
  rw [List.foldl_append]
  cases rooted with
  | false =>
    have hd := foldl_normStepRev_dots k 0
    simp only [List.replicate_zero, Nat.add_zero] at hd
    rw [hd, foldl_normStepRev_goods false ys hys]
    simp
  | true =>
    rw [hk rfl]
    simp only [List.replicate_zero, List.nil_append, List.foldl_nil]
    rw [foldl_normStepRev_goods true ys hys]
    simp

/-- Each element the normalization step emits is from the accumulator, the
processed element itself, or the special `..` component. -/
lemma mem_normStepRev (rooted : Bool) (acc : List (List Char))
    (p x : List Char) (h : x ∈ normStepRev rooted acc p) :
    x ∈ acc ∨ x = p ∨ x = ['.', '.'] := by
  unfold normStepRev at h
  by_cases h1 : p = [] ∨ p = ['.']
  · rw [if_pos h1] at h
    exact Or.inl h
  rw [if_neg h1] at h
  by_cases h2 : p = ['.', '.']
  · rw [if_pos h2] at h
    cases acc with
    | nil =>
      cases rooted with
      | true => simp at h
      | false =>
        simp at h
        exact Or.inr (Or.inr h)
    | cons a rest =>
      dsimp only at h
      by_cases ha : a = ['.', '.']
      · rw [if_pos ha] at h
        rcases List.mem_cons.1 h with h | h
        · exact Or.inr (Or.inl h)
        · exact Or.inl h
      · rw [if_neg ha] at h
        exact Or.inl (List.mem_cons_of_mem a h)
  · rw [if_neg h2] at h
    rcases List.mem_cons.1 h with h | h
    · exact Or.inr (Or.inl h)
    · exact Or.inl h

/-- Each element of a normalized list is from the input or is `..`. -/
lemma mem_foldl_normStepRev (rooted : Bool) (parts : List (List Char)) :
    ∀ (acc : List (List Char)) (x : List Char),
      x ∈ List.foldl (normStepRev rooted) acc parts →
        x ∈ acc ∨ x ∈ parts ∨ x = ['.', '.'] := by
  induction parts with
  | nil =>
    intro acc x hx
    exact Or.inl hx
  | cons p ps ih =>
    intro acc x hx
    rcases ih (normStepRev rooted acc p) x hx with h | h | h
    · rcases mem_normStepRev rooted acc p x h with h | h | h
      · exact Or.inl h
      · exact Or.inr (Or.inl (h ▸ List.mem_cons_self p ps))
      · exact Or.inr (Or.inr h)
    · exact Or.inr (Or.inl (List.mem_cons_of_mem p h))
    · exact Or.inr (Or.inr h)

/-- The normalization step preserves the reversed-normal-form invariant:
the accumulator is usable components followed by a run of `..` (no run when
rooted). -/
lemma normStepRev_shape (rooted : Bool) (ys : List (List Char)) (k : Nat)
    (p : List Char)
    (hys : ∀ y ∈ ys, y ≠ [] ∧ y ≠ ['.'] ∧ y ≠ ['.', '.'])
    (hk : rooted = true → k = 0) :
    ∃ ys2 k2,
      normStepRev rooted (ys ++ List.replicate k ['.', '.']) p =
        ys2 ++ List.replicate k2 ['.', '.'] ∧
      (∀ y ∈ ys2, y ≠ [] ∧ y ≠ ['.'] ∧ y ≠ ['.', '.']) ∧
      (rooted = true → k2 = 0) := by
  unfold normStepRev
  by_cases h1 : p = [] ∨ p = ['.']
  · rw [if_pos h1]
    exact ⟨ys, k, rfl, hys, hk⟩
  rw [if_neg h1]
  by_cases h2 : p = ['.', '.']
  · rw [if_pos h2]
    cases ys with
    | nil =>
      cases k with
      | zero =>
        cases rooted with
        | true => exact ⟨[], 0, by simp, by simp, fun _ => rfl⟩
        | false => exact ⟨[], 1, by simp [h2], by simp, by simp⟩
      | succ k =>
        refine ⟨[], k + 2, ?_, by simp, fun hr => absurd (hk hr) (by simp)⟩
        simp [h2, List.replicate_succ]
    | cons y ys' =>
      have hy := hys y (List.mem_cons_self y ys')
      refine ⟨ys', k, ?_, fun z hz => hys z (List.mem_cons_of_mem y hz), hk⟩
      simp [hy.2.2]
  · rw [if_neg h2]
    refine ⟨p :: ys, k, by simp, ?_, hk⟩
    intro z hz
    rcases List.mem_cons.1 hz with h | h
    · subst h
      exact ⟨fun e => h1 (Or.inl e), fun e => h1 (Or.inr e), h2⟩
    · exact hys z h

/-- The normalized element list is a run of `..` components (empty when
rooted) followed by usable components. -/
lemma normParts_shape (rooted : Bool) (parts : List (List Char)) :
    ∃ k ys,
      normParts rooted parts = List.replicate k ['.', '.'] ++ ys ∧
      (∀ y ∈ ys, y ≠ [] ∧ y ≠ ['.'] ∧ y ≠ ['.', '.']) ∧
      (rooted = true → k = 0) := by
  suffices h : ∀ acc : List (List Char),
      (∃ ys k, acc = ys ++ List.replicate k ['.', '.'] ∧
        (∀ y ∈ ys, y ≠ [] ∧ y ≠ ['.'] ∧ y ≠ ['.', '.']) ∧
        (rooted = true → k = 0)) →
      ∃ ys k, List.foldl (normStepRev rooted) acc parts =
          ys ++ List.replicate k ['.', '.'] ∧
        (∀ y ∈ ys, y ≠ [] ∧ y ≠ ['.'] ∧ y ≠ ['.', '.']) ∧
        (rooted = true → k = 0) by
    obtain ⟨ys, k, heq, hys, hk⟩ :=
      h [] ⟨[], 0, by simp, by simp, fun _ => rfl⟩
    refine ⟨k, ys.reverse, ?_, fun y hy => hys y (List.mem_reverse.1 hy), hk⟩
    unfold normParts
    rw [heq]
    simp
  induction parts with
  | nil =>
    intro acc hacc
    simpa using hacc
  | cons p ps ih =>
    intro acc hacc
    rw [List.foldl_cons]
    apply ih
    obtain ⟨ys, k, heq, hys, hk⟩ := hacc
    subst heq
    obtain ⟨ys2, k2, heq2, hys2, hk2⟩ := normStepRev_shape rooted ys k p hys hk
    exact ⟨ys2, k2, heq2, hys2, hk2⟩

/-- Interleaving starts with the first chunk's first character. -/
lemma intercalChar_head (sep : Char) (x0 : List Char) (rest : List (List Char))
    (h : x0 ≠ []) :
    (intercalChar sep (x0 :: rest)).head? = x0.head? := by
  cases rest with
  | nil => rfl
  | cons y ys =>
    cases x0 with
    | nil => exact absurd rfl h
    | cons a as => rfl

/-- Printing a normal-form element list and re-parsing it recovers the
absoluteness flag and the element list. -/
lemma render_round_trip (rooted : Bool) (comps : List (List Char)) (k : Nat)
    (ys : List (List Char))
    (hc : comps = List.replicate k ['.', '.'] ++ ys)
    (hys : ∀ y ∈ ys, y ≠ [] ∧ y ≠ ['.'] ∧ y ≠ ['.', '.'])
    (hk : rooted = true → k = 0)
    (hsep : ∀ x ∈ comps, '/' ∉ x) :
    goIsAbs (String.mk (renderParts rooted comps)) = rooted ∧
    pathParts (String.mk (renderParts rooted comps)) = comps := by
  have hne : ∀ x ∈ comps, x ≠ [] := by
    intro x hx
    rw [hc] at hx
    rcases List.mem_append.1 hx with h | h
    · rw [List.eq_of_mem_replicate h]
      simp
    · exact (hys x h).1
  cases hcomps : comps with
  | nil =>
    cases rooted <;> subst hcomps <;> exact ⟨by decide, by decide⟩
  | cons c0 crest =>
    rw [← hcomps]
    have hc0 : c0 ≠ [] := hne c0 (hcomps ▸ List.mem_cons_self c0 crest)
    have hcne : comps ≠ [] := by simp [hcomps]
    cases rooted with
    | true =>
      have hr : renderParts true comps = '/' :: intercalChar '/' comps := by
        unfold renderParts
        rw [if_neg hcne]
        rfl
      have habs : goIsAbs (String.mk (renderParts true comps)) = true := by
        rw [hr]
        rfl
      refine ⟨habs, ?_⟩
      unfold pathParts
      rw [habs, hr]
      have hsplit : splitChar '/' (String.mk ('/' :: intercalChar '/' comps)).toList =
          [] :: comps := by
        have : splitChar '/' ('/' :: intercalChar '/' comps) =
            [] :: splitChar '/' (intercalChar '/' comps) := by
          simp [splitChar]
        rw [show (String.mk ('/' :: intercalChar '/' comps)).toList =
              '/' :: intercalChar '/' comps from rfl,
          this, splitChar_intercalChar '/' comps hcne hsep]
      rw [hsplit]
      have hdrop : normParts true ([] :: comps) = normParts true comps := by
        unfold normParts
        rw [List.foldl_cons]
        rfl
      rw [hdrop, hc]
      have hk0 : k = 0 := hk rfl
      subst hk0
      simpa using normParts_fixed true 0 ys hys hk
    | false =>
      have hr : renderParts false comps = intercalChar '/' comps := by
        unfold renderParts
        rw [if_neg hcne]
        rfl
      obtain ⟨a, as, hc0eq⟩ : ∃ a as, c0 = a :: as := by
        cases c0 with
        | nil => exact absurd rfl hc0
        | cons a as => exact ⟨a, as, rfl⟩
      have hhead : (intercalChar '/' comps).head? = some a := by
        rw [hcomps, intercalChar_head '/' c0 crest hc0, hc0eq]
        rfl
      have ha : a ≠ '/' := by
        intro e
        exact hsep c0 (hcomps ▸ List.mem_cons_self c0 crest)
          (hc0eq ▸ e ▸ List.mem_cons_self a as)
      have habs : goIsAbs (String.mk (renderParts false comps)) = false := by
        rw [hr]
        show ((intercalChar '/' comps).head? == some '/') = false
        rw [hhead]
        exact beq_eq_false_iff_ne.2 (by simp [ha])
      refine ⟨habs, ?_⟩
      unfold pathParts
      rw [habs, hr]
      rw [show (String.mk (intercalChar '/' comps)).toList =
            intercalChar '/' comps from rfl,
        splitChar_intercalChar '/' comps hcne hsep, hc]
      exact normParts_fixed false k ys hys (fun h => absurd h (by simp))

/-- `goClean` on a non-empty character list, spelled out. -/
lemma goClean_mk (L : List Char) (hL : L ≠ []) :
    goClean (String.mk L) =
      String.mk (renderParts (L.head? == some '/')
        (normParts (L.head? == some '/') (splitChar '/' L))) := by
  unfold goClean
  dsimp only
  rw [show (String.mk L).toList = L from rfl, if_neg hL]

/-- Normalization carries a trailing usable component through unchanged. -/
lemma normParts_append_good (rooted : Bool) (parts : List (List Char))
    (p : List Char) (hp : p ≠ [] ∧ p ≠ ['.'] ∧ p ≠ ['.', '.']) :
    normParts rooted (parts ++ [p]) = normParts rooted parts ++ [p] := by
  unfold normParts
  rw [List.foldl_append, List.foldl_cons,
    normStepRev_good rooted (List.foldl (normStepRev rooted) [] parts) p hp]
  simp

/-- Every component of a parsed path is separator-free. -/
lemma mem_pathParts_no_sep (d : String) :
    ∀ x ∈ pathParts d, '/' ∉ x := by
  intro x hx
  unfold pathParts normParts at hx
  rcases mem_foldl_normStepRev (goIsAbs d) (splitChar '/' d.toList) []
      x (List.mem_reverse.1 hx) with h | h | h
  · simp at h
  · exact mem_splitChar_no_sep '/' d.toList x h
  · subst h
    simp

/-- Joining one usable file-name component under any directory path yields a
child of that path: same absoluteness, components extended by exactly that
name. -/
lemma goJoin_childOf (d f : String) (hf : goodComp f.toList) :
    childOf (goJoin d f) d := by
  obtain ⟨hfne, hfsep, hfdot, hfdd⟩ := hf
  by_cases hd : d = ""
  · subst hd
    have hfne' : f ≠ "" := by
      intro e
      subst e
      exact hfne rfl
    have hstep : goJoin "" f = goClean (String.mk f.toList) := by
      unfold goJoin
      rw [if_pos rfl, if_neg hfne']
      rfl
    have hsplit : splitChar '/' f.toList = [f.toList] :=
      splitChar_no_sep '/' f.toList hfsep
    have hrooted : (f.toList.head? == some '/') = false := by
      cases hfl : f.toList with
      | nil => exact absurd hfl hfne
      | cons a as =>
        have ha : a ≠ '/' := fun e =>
          hfsep (hfl ▸ e ▸ List.mem_cons_self a as)
        simp [ha]
    have hnorm : normParts false [f.toList] = [f.toList] := by
      have := normParts_fixed false 0 [f.toList]
        (by
          intro y hy
          rcases List.mem_cons.1 hy with h | h
          · subst h
            exact ⟨hfne, hfdot, hfdd⟩
          · simp at h)
        (fun h => absurd h (by simp))
      simpa using this
    have hclean : goJoin "" f =
        String.mk (renderParts false [f.toList]) := by
      rw [hstep, goClean_mk f.toList hfne, hrooted, hsplit, hnorm]
    obtain ⟨habs, hpp⟩ := render_round_trip false [f.toList] 0 [f.toList]
      (by simp)
      (by
        intro y hy
        rcases List.mem_cons.1 hy with h | h
        · subst h
          exact ⟨hfne, hfdot, hfdd⟩
        · simp at h)
      (fun h => absurd h (by simp))
      (by
        intro x hx
        rcases List.mem_cons.1 hx with h | h
        · subst h
          exact hfsep
        · simp at h)
    refine ⟨?_, f.toList, ⟨hfne, hfsep, hfdot, hfdd⟩, ?_⟩
    · rw [hclean, habs]
      rfl
    · rw [hclean, hpp]
      rfl
  · have hdl : d.toList ≠ [] := by
      intro e
      apply hd
      have hde : d = String.mk d.toList := rfl
      rw [hde, e]
    have hstep : goJoin d f =
        goClean (String.mk (d.toList ++ '/' :: f.toList)) := by
      unfold goJoin
      rw [if_neg hd]
    have hcs : d.toList ++ '/' :: f.toList ≠ [] := by simp
    have hhead : (d.toList ++ '/' :: f.toList).head? = d.toList.head? := by
      cases hdt : d.toList with
      | nil => exact absurd hdt hdl
      | cons a as => rfl
    have hsplit : splitChar '/' (d.toList ++ '/' :: f.toList) =
        splitChar '/' d.toList ++ [f.toList] := by
      rw [splitChar_append_sep, splitChar_no_sep '/' f.toList hfsep]
    have hnorm : normParts (goIsAbs d) (splitChar '/' d.toList ++ [f.toList]) =
        pathParts d ++ [f.toList] :=
      normParts_append_good (goIsAbs d) (splitChar '/' d.toList) f.toList
        ⟨hfne, hfdot, hfdd⟩
    have hclean : goJoin d f =
        String.mk (renderParts (goIsAbs d) (pathParts d ++ [f.toList])) := by
      rw [hstep, goClean_mk (d.toList ++ '/' :: f.toList) hcs, hhead]
      rw [show (d.toList.head? == some '/') = goIsAbs d from rfl]
      rw [hsplit, hnorm]
    obtain ⟨k, ys, hshape, hys, hk⟩ :=
      normParts_shape (goIsAbs d) (splitChar '/' d.toList)
    have hshape' : pathParts d ++ [f.toList] =
        List.replicate k ['.', '.'] ++ (ys ++ [f.toList]) := by
      unfold pathParts
      rw [hshape, List.append_assoc]
    obtain ⟨habs, hpp⟩ := render_round_trip (goIsAbs d)
      (pathParts d ++ [f.toList]) k (ys ++ [f.toList]) hshape'
      (by
        intro y hy
        rcases List.mem_append.1 hy with h | h
        · exact hys y h
        · rcases List.mem_cons.1 h with h | h
          · subst h
            exact ⟨hfne, hfdot, hfdd⟩
          · simp at h)
      hk
      (by
        intro x hx
        rcases List.mem_append.1 hx with h | h
        · exact mem_pathParts_no_sep d x h
        · rcases List.mem_cons.1 h with h | h
          · subst h
            exact hfsep
          · simp at h)
    refine ⟨?_, f.toList, ⟨hfne, hfsep, hfdot, hfdd⟩, ?_⟩
    · rw [hclean, habs]
    · rw [hclean, hpp]

end GoPath

namespace database

/-- A sequence with no active entry yields the all-zero key and `false`. -/
lemma activeIdentity_of_none_active (l : List Identity)
    (h : ∀ v ∈ l, IsIdentityActive v = false) :
    ActiveIdentity l = (zeroKey, false) := by
  induction l with
  | nil => rfl
  | cons v rest ih =>
    have hv := h v (List.mem_cons_self v rest)
    simp only [ActiveIdentity, hv, if_false, Bool.false_eq_true]
    exact ih fun u hu => h u (List.mem_cons_of_mem v hu)

/-- The first active entry in sequence order supplies the result. -/
lemma activeIdentity_first_active (l1 : List Identity) (v : Identity)
    (l2 : List Identity) (h1 : ∀ u ∈ l1, IsIdentityActive u = false)
    (hv : IsIdentityActive v = true) :
    ActiveIdentity (l1 ++ v :: l2) = (v.Key, true) := by
  induction l1 with
  | nil => simp [ActiveIdentity, hv]
  | cons u rest ih =>
    have hu := h1 u (List.mem_cons_self u rest)
    simp only [List.cons_append, ActiveIdentity, hu, Bool.false_eq_true, if_false]
    exact ih fun w hw => h1 w (List.mem_cons_of_mem u hw)

end database

/-- C3: `ActiveIdentity` returns `found = false` with the all-zero key on an
empty sequence and whenever no entry satisfies the active predicate, and
otherwise returns the key of the first entry in sequence order satisfying
it, even when several entries are active. -/
theorem activeIdentity_first_active_spec (l : List database.Identity) :
    ((∀ v ∈ l, database.IsIdentityActive v = false) →
      database.ActiveIdentity l = (database.zeroKey, false)) ∧
    (∀ (l1 : List database.Identity) (v : database.Identity)
        (l2 : List database.Identity),
      l = l1 ++ v :: l2 →
      (∀ u ∈ l1, database.IsIdentityActive u = false) →
      database.IsIdentityActive v = true →
      database.ActiveIdentity l = (v.Key, true)) := by
  refine ⟨fun h => database.activeIdentity_of_none_active l h, ?_⟩
  intro l1 v l2 hl h1 hv
  rw [hl]
  exact database.activeIdentity_first_active l1 v l2 h1 hv

/-- Witness for C3: on a sequence whose first entry is inactive and whose
second and third entries are both active, the second entry's key is
returned; a sequence of inactive entries yields the zero key and `false`. -/
theorem activeIdentity_first_active_spec_witness :
    database.ActiveIdentity
        [⟨[3], 7, 9⟩, ⟨[1], 5, 0⟩, ⟨[2], 6, 0⟩] = ([1], true) ∧
    database.ActiveIdentity [(⟨[3], 7, 9⟩ : database.Identity)] =
      (database.zeroKey, false) :=
  ⟨(activeIdentity_first_active_spec
        [⟨[3], 7, 9⟩, ⟨[1], 5, 0⟩, ⟨[2], 6, 0⟩]).2
      [⟨[3], 7, 9⟩] ⟨[1], 5, 0⟩ [⟨[2], 6, 0⟩] rfl (by decide) (by decide),
    (activeIdentity_first_active_spec [⟨[3], 7, 9⟩]).1 (by decide)⟩

/-- C4: `IsIdentityActive` is true exactly when `Activated != 0` and
`Deactivated == 0`, for every combination of timestamps. -/
theorem isIdentityActive_iff_spec (k : List Nat) (a d : Int) :
    database.IsIdentityActive ⟨k, a, d⟩ = true ↔ (a ≠ 0 ∧ d = 0) := by
  simp [database.IsIdentityActive]

/-- C10: `ActiveIdentityString` is exactly the hex encoding of
`ActiveIdentity`'s key paired with its found flag; with no active entry it
returns the hex encoding of the all-zero key — a string of
`2 * PublicKeySize` `'0'` characters, not the empty string — and `false`. -/
theorem activeIdentityString_hex_spec (l : List database.Identity) :
    database.ActiveIdentityString l =
      (database.hexEncodeToString (database.ActiveIdentity l).1,
        (database.ActiveIdentity l).2) ∧
    ((∀ v ∈ l, database.IsIdentityActive v = false) →
      database.ActiveIdentityString l =
          (String.mk (List.replicate (2 * database.PublicKeySize) '0'), false) ∧
        (database.ActiveIdentityString l).1 ≠ "") := by
  refine ⟨rfl, fun h => ?_⟩
  have hz := database.activeIdentity_of_none_active l h
  unfold database.ActiveIdentityString
  rw [hz]
  exact ⟨by decide, by decide⟩

/-- Witness for C10: a single inactive identity yields the 64-character
all-zero hex string and `false`. -/
theorem activeIdentityString_hex_spec_witness :
    database.ActiveIdentityString [(⟨[3], 7, 9⟩ : database.Identity)] =
      (String.mk (List.replicate (2 * database.PublicKeySize) '0'), false) :=
  ((activeIdentityString_hex_spec [⟨[3], 7, 9⟩]).2 (by decide)).1

/-- C1: field-by-field precedence.  In every successful resolution whose
config file parses to the option set `p`, each overlapping field of the
result is the command-line value when the command line sets it, else the
file value when the file sets it, else the built-in default — for the two
path fields the default as adjusted by the pre-parse data-directory step
(`preAdjusted`).  A source that sets only some fields leaves the
lower-precedence values of the others in place. -/
theorem load_precedence_field_granular (home cwd : String)
    (env : String → String) (cli : config.CliInput) (p : config.PartialConfig)
    (readFile : String → config.ReadResult) (mkdirOk : String → Bool)
    (cfg : config.Config) (w : Option config.GoErr)
    (hh : cli.help = false) (hm : cli.malformed = false)
    (hr : readFile ((config.preAdjusted home cwd env cli).ConfigFile) =
      .parsed p)
    (hl : (config.load home cwd env cli readFile mkdirOk).outcome = .ok cfg w) :
    cfg.AdminEmail = cli.opts.AdminEmail.getD
        (p.AdminEmail.getD "admin@example.com") ∧
    cfg.AdminUser = cli.opts.AdminUser.getD (p.AdminUser.getD "admin") ∧
    cfg.AdminPass = cli.opts.AdminPass.getD (p.AdminPass.getD "password") ∧
    cfg.ContractorEmail = cli.opts.ContractorEmail.getD
        (p.ContractorEmail.getD "contractor@example.com") ∧
    cfg.ContractorUser = cli.opts.ContractorUser.getD
        (p.ContractorUser.getD "contractor") ∧
    cfg.ContractorPass = cli.opts.ContractorPass.getD
        (p.ContractorPass.getD "password") ∧
    cfg.ContractorName = cli.opts.ContractorName.getD
        (p.ContractorName.getD "John Smith") ∧
    cfg.ContractorLocation = cli.opts.ContractorLocation.getD
        (p.ContractorLocation.getD "Dallas, TX, USA") ∧
    cfg.ContractorExtendedPublicKey = cli.opts.ContractorExtendedPublicKey.getD
        (p.ContractorExtendedPublicKey.getD "faketpub") ∧
    cfg.Verbose = cli.opts.Verbose.getD (p.Verbose.getD false) ∧
    cfg.DebugLevel = cli.opts.DebugLevel.getD (p.DebugLevel.getD "info") ∧
    cfg.DeleteData = cli.opts.DeleteData.getD (p.DeleteData.getD false) ∧
    cfg.IncludeTests = cli.opts.IncludeTests.getD (p.IncludeTests.getD false) ∧
    cfg.DataDir = cli.opts.DataDir.getD
        (p.DataDir.getD (config.preAdjusted home cwd env cli).DataDir) ∧
    cfg.ConfigFile = cli.opts.ConfigFile.getD
        (p.ConfigFile.getD (config.preAdjusted home cwd env cli).ConfigFile) := by
  simp only [config.load, hh, Bool.false_eq_true, if_false, hr] at hl
  unfold config.loadFinish at hl
  simp only [hm, Bool.false_eq_true, if_false] at hl
  split at hl
  · simp only [config.LoadOutcome.ok.injEq] at hl
    rw [← hl.1]
    unfold config.preAdjusted config.applyDataDirOverride
    split <;>
      simp [config.applyPartial, config.defaultConfig, config.defaultLogLevel]
  · simp at hl

/-- Witness for C1: a command line setting only the admin username, a config
file setting only the admin username and password; the result keeps the CLI
username, the file password and the default email. -/
theorem load_precedence_field_granular_witness :
    ((config.CliInput.mk false false { AdminUser := some "cliadmin" }).help =
        false ∧
      (config.load "/h" "/" (fun s => s)
          (config.CliInput.mk false false { AdminUser := some "cliadmin" })
          (fun _ => .parsed
            { AdminUser := some "fileadmin", AdminPass := some "filepass" })
          (fun _ => true)).outcome =
        .ok c1WitnessConfig none) ∧
    c1WitnessConfig.AdminUser = "cliadmin" ∧
    c1WitnessConfig.AdminPass = "filepass" ∧
    c1WitnessConfig.AdminEmail = "admin@example.com" :=
  ⟨⟨rfl, by decide⟩,
    (load_precedence_field_granular "/h" "/" (fun s => s)
        (config.CliInput.mk false false { AdminUser := some "cliadmin" })
        { AdminUser := some "fileadmin", AdminPass := some "filepass" }
        (fun _ => .parsed
          { AdminUser := some "fileadmin", AdminPass := some "filepass" })
        (fun _ => true) c1WitnessConfig none rfl rfl rfl (by decide)).2.1,
    (load_precedence_field_granular "/h" "/" (fun s => s)
        (config.CliInput.mk false false { AdminUser := some "cliadmin" })
        { AdminUser := some "fileadmin", AdminPass := some "filepass" }
        (fun _ => .parsed
          { AdminUser := some "fileadmin", AdminPass := some "filepass" })
        (fun _ => true) c1WitnessConfig none rfl rfl rfl (by decide)).2.2.1,
    (load_precedence_field_granular "/h" "/" (fun s => s)
        (config.CliInput.mk false false { AdminUser := some "cliadmin" })
        { AdminUser := some "fileadmin", AdminPass := some "filepass" }
        (fun _ => .parsed
          { AdminUser := some "fileadmin", AdminPass := some "filepass" })
        (fun _ => true) c1WitnessConfig none rfl rfl rfl (by decide)).1⟩

/-- The tail of `Load` records exactly the config-file read attempts it was
handed. -/
lemma loadFinish_fileReads (cli : config.CliInput) (mkdirOk : String → Bool)
    (cfg2 : config.Config) (warn : Option config.GoErr)
    (reads : List String) :
    (config.loadFinish cli mkdirOk cfg2 warn reads).fileReads = reads := by
  unfold config.loadFinish
  split
  · rfl
  · dsimp only
    split <;> rfl

/-- C6: under the data-directory override step, when the config-file path is
at its default value the resolved config-file path is the default config
filename joined under the absolutized data directory; when it differs from
the default the path is instead cleaned and expanded by
`cleanAndExpandPath` — a leading `~` replaced by the home directory,
environment references expanded, the path normalized — independent of the
data directory.  In either case `Load` reads the config file at exactly
this resolved path. -/
theorem configFile_relocation_spec (home cwd : String) (env : String → String)
    (cli : config.CliInput)
    (hd : (config.applyPartial (config.defaultConfig home) cli.opts).DataDir ≠
      "") :
    ((config.applyPartial (config.defaultConfig home) cli.opts).ConfigFile =
        config.defaultConfigFile home →
      (config.preAdjusted home cwd env cli).ConfigFile =
        GoPath.goJoin
          (GoPath.goAbs cwd
            (config.applyPartial (config.defaultConfig home) cli.opts).DataDir)
          config.defaultConfigFilename) ∧
    ((config.applyPartial (config.defaultConfig home) cli.opts).ConfigFile ≠
        config.defaultConfigFile home →
      (config.preAdjusted home cwd env cli).ConfigFile =
        config.cleanAndExpandPath home env
          (config.applyPartial (config.defaultConfig home) cli.opts).ConfigFile) ∧
    (cli.help = false →
      ∀ (readFile : String → config.ReadResult) (mkdirOk : String → Bool),
        (config.load home cwd env cli readFile mkdirOk).fileReads =
          [(config.preAdjusted home cwd env cli).ConfigFile]) := by
  refine ⟨?_, ?_, ?_⟩
  · intro hc
    unfold config.preAdjusted config.applyDataDirOverride
    rw [if_pos hd]
    dsimp only
    rw [if_pos hc]
  · intro hc
    unfold config.preAdjusted config.applyDataDirOverride
    rw [if_pos hd]
    dsimp only
    rw [if_neg hc]
  · intro hh readFile mkdirOk
    simp only [config.load, hh, Bool.false_eq_true, if_false]
    cases hv : readFile (config.preAdjusted home cwd env cli).ConfigFile with
    | parsed p => simp [loadFinish_fileReads]
    | readErr e =>
      cases e <;> simp [loadFinish_fileReads, config.GoErr.isPathErr]

/-- Witness for C6: with home `/home/u/.cm` and an explicit
`--configfile=~/my.conf` override alongside a data-directory override, the
resolved config-file path is the tilde-expanded, cleaned
`/home/u/my.conf` — not a path under the data directory. -/
theorem configFile_relocation_spec_witness :
    ((config.applyPartial (config.defaultConfig "/home/u/.cm")
        { DataDir := some "/d", ConfigFile := some "~/my.conf" }).DataDir ≠
      "") ∧
    (config.preAdjusted "/home/u/.cm" "/" (fun s => s)
        { help := false, malformed := false
          opts := { DataDir := some "/d",
                    ConfigFile := some "~/my.conf" } }).ConfigFile =
      "/home/u/my.conf" :=
  ⟨by decide, by
    have h := (configFile_relocation_spec "/home/u/.cm" "/" (fun s => s)
        { help := false, malformed := false
          opts := { DataDir := some "/d", ConfigFile := some "~/my.conf" } }
        (by decide)).2.1 (by decide)
    rw [h]
    decide⟩

/-- C9: resolving with the single command-line override `--datadir=/tmp/x`
and no config file present yields `DataDir = "/tmp/x"`,
`ConfigFile = "/tmp/x/cmswwwdataload.conf"`, a recorded missing-file
warning, and log paths `"/tmp/x/politeiad.log"` and `"/tmp/x/cmswww.log"`. -/
theorem load_datadir_tmpx_scenario :
    config.load "/home/user/.cmswww" "/home/user" (fun s => s)
        { help := false, malformed := false, opts := { DataDir := some "/tmp/x" } }
        (fun _ => .readErr (.pathErr true)) (fun _ => true) =
      { outcome := .ok scenario9Config (some (.pathErr true))
        fileReads := ["/tmp/x/cmswwwdataload.conf"]
        mkdirs := ["/tmp/x"] } ∧
    scenario9Config.DataDir = "/tmp/x" ∧
    scenario9Config.ConfigFile = "/tmp/x/cmswwwdataload.conf" ∧
    scenario9Config.PoliteiadLogFile = "/tmp/x/politeiad.log" ∧
    scenario9Config.CmswwwLogFile = "/tmp/x/cmswww.log" := by
  decide

/-- C5: evaluating `Load` at the relative command-line data-directory
override `rel` (working directory `/work`, config file absent): the
resolution succeeds but the returned `DataDir` is the raw relative value
`"rel"`, not an absolute cleaned path — the final command-line parse
overwrites the absolutized value computed during the pre-parse step, so the
claimed invariant does not hold of the returned record. -/
theorem load_relative_datadir_stays_relative :
    config.load "/home/u/.cmswww" "/work" (fun s => s)
        { help := false, malformed := false, opts := { DataDir := some "rel" } }
        (fun _ => .readErr (.pathErr true)) (fun _ => true) =
      { outcome := .ok relDataDirConfig (some (.pathErr true))
        fileReads := ["/work/rel/cmswwwdataload.conf"]
        mkdirs := ["rel"] } ∧
    relDataDirConfig.DataDir = "rel" ∧
    GoPath.goIsAbs relDataDirConfig.DataDir = false := by
  decide

/-- C8: when the help flag is present on the command line, `Load`
short-circuits during the pre-parse: the result is the distinguished help
outcome — not a failure and not a configuration value — and no config-file
read and no directory creation is attempted. -/
theorem load_help_short_circuit (home cwd : String) (env : String → String)
    (cli : config.CliInput) (readFile : String → config.ReadResult)
    (mkdirOk : String → Bool) (h : cli.help = true) :
    config.load home cwd env cli readFile mkdirOk =
      { outcome := .helpExit, fileReads := [], mkdirs := [] } ∧
    (∀ r, (config.load home cwd env cli readFile mkdirOk).outcome ≠ .fatal r) ∧
    (∀ c w, (config.load home cwd env cli readFile mkdirOk).outcome ≠ .ok c w) := by
  refine ⟨by simp [config.load, h], ?_, ?_⟩ <;>
    · intros
      simp [config.load, h]

/-- Counterexample to C2 as stated: a config file that exists but cannot be
opened — a path error whose cause is not absence, e.g. permission denied —
is not fatal: `Load` succeeds and records the error as the deferred warning,
exactly as it does for absence.  So absence is not the only file-read
condition downgraded to a warning. -/
theorem load_nonabsence_path_error_not_fatal :
    (config.GoErr.pathErr false).isPathErr = true ∧
    config.load "/h" "/" (fun s => s)
        { help := false, malformed := false, opts := {} }
        (fun _ => .readErr (.pathErr false)) (fun _ => true) =
      { outcome := .ok permErrConfig (some (.pathErr false))
        fileReads := ["/h/dataload/cmswwwdataload.conf"]
        mkdirs := ["/h/dataload"] } := by
  decide

/-- C2 (amended): `Load` never fails because the config file is absent —
absence is recorded as a deferred warning and resolution continues; a config
file whose read yields a non-path error (invalid syntax) always makes `Load`
fail at the config-file step; but the downgraded class is every path error
from opening the file — absence or any other open failure — not absence
alone. -/
theorem load_config_file_error_policy (home cwd : String)
    (env : String → String) (cli : config.CliInput)
    (readFile : String → config.ReadResult) (mkdirOk : String → Bool)
    (e : config.GoErr) (hh : cli.help = false)
    (hr : readFile ((config.preAdjusted home cwd env cli).ConfigFile) =
      .readErr e) :
    (e.isPathErr = false →
      (config.load home cwd env cli readFile mkdirOk).outcome =
        .fatal .configFileError) ∧
    (e.isPathErr = true →
      (config.load home cwd env cli readFile mkdirOk).outcome ≠
          .fatal .configFileError ∧
        ∀ c w, (config.load home cwd env cli readFile mkdirOk).outcome =
            .ok c w → w = some e) := by
  simp only [config.load, hh, Bool.false_eq_true, if_false, hr]
  constructor
  · intro hp
    simp [hp]
  · intro hp
    simp only [hp, if_true]
    unfold config.loadFinish
    dsimp only
    constructor
    · split
      · simp
      · split <;> simp
    · intro c w
      split
      · simp
      · split
        · intro h
          simp only [config.LoadOutcome.ok.injEq] at h
          exact h.2.symm
        · simp

/-- Witness for C2 (amended): with a concrete absent config file the
resolution does not fail at the config-file step. -/
theorem load_config_file_error_policy_witness :
    ((fun _ : String => config.ReadResult.readErr (.pathErr true))
        ((config.preAdjusted "/h" "/" (fun s => s)
            { help := false, malformed := false, opts := {} }).ConfigFile) =
      .readErr (.pathErr true)) ∧
    (config.load "/h" "/" (fun s => s)
        { help := false, malformed := false, opts := {} }
        (fun _ => .readErr (.pathErr true)) (fun _ => true)).outcome ≠
      .fatal .configFileError :=
  ⟨rfl,
    ((load_config_file_error_policy "/h" "/" (fun s => s)
          { help := false, malformed := false, opts := {} }
          (fun _ => .readErr (.pathErr true)) (fun _ => true)
          (.pathErr true) rfl rfl).2 rfl).1⟩

/-- Witness for C8: a concrete command line carrying the help flag. -/
theorem load_help_short_circuit_witness :
    (config.CliInput.mk true false {}).help = true ∧
    config.load "/h" "/" (fun s => s) (config.CliInput.mk true false {})
        (fun _ => .readErr (.pathErr true)) (fun _ => true) =
      { outcome := .helpExit, fileReads := [], mkdirs := [] } :=
  ⟨rfl,
    (load_help_short_circuit "/h" "/" (fun s => s) (config.CliInput.mk true false {})
        (fun _ => .readErr (.pathErr true)) (fun _ => true) rfl).1⟩

/-- A successful tail of `Load` always carries the two log-file paths joined
under its own final data directory. -/
lemma loadFinish_ok_logs (cli : config.CliInput) (mkdirOk : String → Bool)
    (cfg2 : config.Config) (warn : Option config.GoErr) (reads : List String)
    (cfg : config.Config) (w : Option config.GoErr)
    (h : (config.loadFinish cli mkdirOk cfg2 warn reads).outcome = .ok cfg w) :
    cfg.PoliteiadLogFile =
        GoPath.goJoin cfg.DataDir config.defaultPoliteiadLogFilename ∧
      cfg.CmswwwLogFile =
        GoPath.goJoin cfg.DataDir config.defaultCmswwwLogFilename := by
  unfold config.loadFinish at h
  split at h
  · simp at h
  · dsimp only at h
    split at h
    · simp only [config.LoadOutcome.ok.injEq] at h
      rw [← h.1]
      exact ⟨rfl, rfl⟩
    · simp at h

/-- A successful `Load` always carries the two log-file paths joined under
its own final data directory. -/
lemma load_ok_logs (home cwd : String) (env : String → String)
    (cli : config.CliInput) (readFile : String → config.ReadResult)
    (mkdirOk : String → Bool) (cfg : config.Config) (w : Option config.GoErr)
    (h : (config.load home cwd env cli readFile mkdirOk).outcome = .ok cfg w) :
    cfg.PoliteiadLogFile =
        GoPath.goJoin cfg.DataDir config.defaultPoliteiadLogFilename ∧
      cfg.CmswwwLogFile =
        GoPath.goJoin cfg.DataDir config.defaultCmswwwLogFilename := by
  unfold config.load at h
  split at h
  · simp at h
  · dsimp only at h
    split at h
    · split at h
      · exact loadFinish_ok_logs _ _ _ _ _ _ _ h
      · simp at h
    · exact loadFinish_ok_logs _ _ _ _ _ _ _ h

/-- C7: in every configuration value successfully returned by `Load`, the
two derived log-file paths are children of the final resolved data
directory — same absoluteness and exactly one usable component deeper —
whatever combination of sources supplied the data directory. -/
theorem load_log_paths_children (home cwd : String) (env : String → String)
    (cli : config.CliInput) (readFile : String → config.ReadResult)
    (mkdirOk : String → Bool) (cfg : config.Config) (w : Option config.GoErr)
    (h : (config.load home cwd env cli readFile mkdirOk).outcome = .ok cfg w) :
    GoPath.childOf cfg.PoliteiadLogFile cfg.DataDir ∧
    GoPath.childOf cfg.CmswwwLogFile cfg.DataDir := by
  obtain ⟨h1, h2⟩ := load_ok_logs home cwd env cli readFile mkdirOk cfg w h
  constructor
  · rw [h1]
    exact GoPath.goJoin_childOf cfg.DataDir config.defaultPoliteiadLogFilename
      (by unfold GoPath.goodComp; decide)
  · rw [h2]
    exact GoPath.goJoin_childOf cfg.DataDir config.defaultCmswwwLogFilename
      (by unfold GoPath.goodComp; decide)

/-- Witness for C7: a concrete resolution with no overrides and an empty
parsed config file; both log paths are children of the resolved data
directory. -/
theorem load_log_paths_children_witness :
    (config.load "/h" "/" (fun s => s) (config.CliInput.mk false false {})
        (fun _ => .parsed {}) (fun _ => true)).outcome =
      .ok c7WitnessConfig none ∧
    GoPath.childOf c7WitnessConfig.PoliteiadLogFile c7WitnessConfig.DataDir :=
  ⟨by decide,
    (load_log_paths_children "/h" "/" (fun s => s)
        (config.CliInput.mk false false {}) (fun _ => .parsed {})
        (fun _ => true) c7WitnessConfig none (by decide)).1⟩
